import Mathlib

/-!
Shallow embedding of `src/lazy_writer.py` (class `Model` and its helpers).

Conventions of the embedding:

* Python exceptions become the `Except PyError` monad; `ValueError(msg)`
  becomes `PyError.valueError msg`, and the run-time failures the source can
  hit (calling a non-callable, indexing an empty string, a missing dict key,
  a missing attribute) become dedicated constructors.
* Python dicts become ordered association lists with dict semantics:
  insertion of a present key replaces the value in place, insertion of an
  absent key appends at the end (`dictInsert` / `lookupDict`).
* Index producers (`default_index`, the `index` arguments) are the
  restartable lambdas the source's docstrings ask for: a pure function
  `Unit → List Nat` returns the same fresh sequence at every call, which is
  exactly the "restartable" contract.
* A term-stream factory (the lambdas stored in objective / constraint
  expressions and produced by `Model.sum`) is `Unit → Except PyError
  (List String)`: calling it yields the sequence of formatted terms the
  Python generator would yield, or the exception the generator would raise.
* `write` cannot be written as file I/O here; it returns the full text that
  the source writes to the file, paired with the returned handle
  (`f'{output_file}'`).
-/

namespace LazyWriter

/-- Python exceptions that the translated code paths can raise. -/
inductive PyError where
  | valueError (msg : String)
  | typeError
  | keyError
  | indexError
  | attributeError
deriving DecidableEq, Repr

/-- A restartable index producer: the `lambda: (generator)` objects the
source expects for `default_index` and `index`. Each call returns a fresh
copy of the same sequence (purity = restartability). -/
def IndexProducer : Type := Unit → List Nat

/-- A term-stream factory: invoking it produces the formatted term strings
the corresponding Python generator would yield, or the exception the
generator would raise while being drained. -/
def TermFun : Type := Unit → Except PyError (List String)

/-- A Python value that can appear as an ``expression`` argument
(`add_objective` / `add_constraints` / `write_expr`).  The source's
`expr_types` list admits `str`, `FunctionType`, `LambdaType` and `list`;
`otherE` stands for any other Python value (an int, `None`, ...). -/
inductive ExprVal where
  | strE (s : String)
  | lamE (f : TermFun)
  | listE (items : List ExprVal)
  | otherE

/-- `type(expr) in self.expr_types` — the source's `expr_types` is
`[str, types.FunctionType, types.LambdaType, list]`, so strings, functions
and lists pass, anything else fails. -/
def expr_type_ok : ExprVal → Bool
  | .strE _ => true
  | .lamE _ => true
  | .listE _ => true
  | .otherE => false

/-- `Model.check_expr`: raises `ValueError(f'Bad expression: {expr}')` when
the expression's type is not in `expr_types`. -/
def check_expr (expr : ExprVal) : Except PyError Unit :=
  if expr_type_ok expr then .ok () else .error (.valueError "Bad expression")

/-- Ordered association list lookup — Python `d[k]` as an `Option`. -/
def lookupDict {α β : Type} [DecidableEq α] : List (α × β) → α → Option β
  | [], _ => none
  | (k, v) :: rest, key => if k = key then some v else lookupDict rest key

/-- Python dict assignment `d[k] = v`: replaces in place when the key is
present, appends when it is absent (insertion order is preserved). -/
def dictInsert {α β : Type} [DecidableEq α] : List (α × β) → α → β → List (α × β)
  | [], k, v => [(k, v)]
  | (k', v') :: rest, k, v =>
    if k' = k then (k, v) :: rest else (k', v') :: dictInsert rest k v

/-- The argument a caller passes for `upper_bounds` / `lower_bounds`:
`None`, a scalar (`int` or `float`), or a user-supplied producer lambda. -/
inductive BoundArg where
  | noneA
  | numA (b : Int)
  | producerA (f : Unit → Int)

/-- The value held, after `add_variable` runs, both by the local variable
`upper_bounds` (resp. `lower_bounds`) of `add_variable`'s frame and by the
registry slot that stores it.  `frameLambda` is the closure
`lambda: upper_bounds` created by the scalar-normalisation branch: Python
closures capture the *variable*, not its value, and the very assignment
`upper_bounds = lambda: upper_bounds` rebinds that variable to the closure
itself, so the closure's body, `upper_bounds`, evaluates to the closure. -/
inductive StoredBound where
  | noneV
  | producer (f : Unit → Int)
  | frameLambda

/-- The two scalar-normalisation statements of `add_variable`:
`if type(b) in [int, float]: b = lambda: b`.  For a scalar the stored value
is the self-referential closure (the scalar itself becomes unreachable: the
only name that referred to it has been rebound); `None` and producer
arguments are stored unchanged. -/
def normalizeBound : BoundArg → StoredBound
  | .noneA => .noneV
  | .numA _ => .frameLambda
  | .producerA f => .producer f

/-- What one call of a stored bound returns: a number, or a function
object. -/
inductive BoundCallResult where
  | numR (b : Int)
  | funcR (v : StoredBound)

/-- Calling the stored bound once, e.g. `m.variables['x']['upper_bounds']()`:
`None` is not callable; a user producer returns its number; the
normalisation closure `lambda: upper_bounds` returns the current value of
the frame variable `upper_bounds` — which is the closure itself, since the
normalisation assignment rebound it and nothing mutates it afterwards. -/
def callBound : StoredBound → Except PyError BoundCallResult
  | .noneV => .error .typeError
  | .producer f => .ok (.numR (f ()))
  | .frameLambda => .ok (.funcR .frameLambda)

/-- One entry of `Model.variables`: the dict
`{'variable_type': ..., 'upper_bounds': ..., 'lower_bounds': ...,
'default_index': ...}`. -/
structure VarEntry where
  variable_type : String
  upper_bounds : StoredBound
  lower_bounds : StoredBound
  default_index : Option IndexProducer

/-- Keys of `Model.constraints`: the auto-increment integer counter or an
explicit block name. -/
inductive BlockKey where
  | autoKey (n : Nat)
  | nameKey (s : String)
deriving DecidableEq, Repr

/-- The tuple stored per constraint block.  The unnamed branch stores
`(expression, sense, rhs, index)`; the named branch stores only
`(expression, sense, index)` — the source drops `rhs` there. -/
inductive ConstraintTuple where
  | tuple4 (expression : ExprVal) (sense : String) (rhs : Int)
      (index : Option IndexProducer)
  | tuple3 (expression : ExprVal) (sense : String)
      (index : Option IndexProducer)

/-- The mutable state of a `Model` instance.  `objective_expr` /
`objective_sense` are `Option`s because the Python attributes only exist
once `add_objective` has run (reading them before raises
`AttributeError`). -/
structure Model where
  vars : List (String × VarEntry)
  constraints : List (BlockKey × ConstraintTuple)
  constraint_block : Nat
  objective_expr : Option (List ExprVal)
  objective_sense : Option String

/-- `Model.__init__`. -/
def Model.init : Model :=
  { vars := [], constraints := [], constraint_block := 0,
    objective_expr := none, objective_sense := none }

/-- `Model.var_types`. -/
def var_types : List String :=
  ["Real", "nonnegative_Real", "nonpositive_Real", "positive_Real",
   "negative_Real", "Integer", "nonnegative_Integer", "nonpositive_Integer",
   "positive_Integer", "negative_Integer", "Binary"]

/-- `Model.add_variable`: validates the variable type, normalises scalar
bounds through `normalizeBound`, and stores the entry under `name`
(overwriting a prior declaration with that name, as a dict assignment
does). -/
def Model.add_variable (m : Model) (name variable_type : String)
    (upper_bounds lower_bounds : BoundArg)
    (default_index : Option IndexProducer) : Except PyError Model :=
  if variable_type ∈ var_types then
    let entry : VarEntry :=
      { variable_type := variable_type,
        upper_bounds := normalizeBound upper_bounds,
        lower_bounds := normalizeBound lower_bounds,
        default_index := default_index }
    .ok { m with vars := dictInsert m.vars name entry }
  else .error (.valueError ("Bad variable_type: " ++ variable_type))

/-- `Model.add_objective`: checks the expression type and the sense, wraps a
non-list expression into a one-element list, and stores both attributes. -/
def Model.add_objective (m : Model) (expression : ExprVal) (sense : String) :
    Except PyError Model :=
  match check_expr expression with
  | .error e => .error e
  | .ok () =>
  if sense ∈ (["MIN", "MAX"] : List String) then
    .ok { m with
      objective_expr := some (match expression with
        | .listE l => l
        | e => [e]),
      objective_sense := some sense }
  else .error (.valueError ("Bad sense: " ++ sense))

/-- `Model.add_constraints`: checks the expression type; with a falsy
`block_name` (omitted, or an empty string) it stores the 4-tuple under the
auto-increment counter and bumps the counter, otherwise it stores the
3-tuple (without `rhs`!) under the name.  There is no duplicate-name check:
a taken key is silently overwritten by the dict assignment. -/
def Model.add_constraints (m : Model) (expression : ExprVal) (sense : String)
    (rhs : Int) (index : Option IndexProducer) (block_name : Option String) :
    Except PyError Model :=
  match check_expr expression with
  | .error e => .error e
  | .ok () =>
  match block_name with
  | none =>
    .ok { m with
      constraints := dictInsert m.constraints (.autoKey m.constraint_block)
        (.tuple4 expression sense rhs index),
      constraint_block := m.constraint_block + 1 }
  | some nm =>
    if nm.isEmpty then
      .ok { m with
        constraints := dictInsert m.constraints (.autoKey m.constraint_block)
          (.tuple4 expression sense rhs index),
        constraint_block := m.constraint_block + 1 }
    else
      .ok { m with
        constraints := dictInsert m.constraints (.nameKey nm)
          (.tuple3 expression sense index) }

/-- The `coefficients` argument of `Model.sum`: `None`, or a dict mapping
index values to numbers. -/
inductive CoefArg where
  | noneArg
  | dict (entries : List (Nat × Int))

/-- Python truthiness of the `coefficients` argument: `None` and an empty
dict are falsy, a non-empty dict is truthy (`if not coefficients`). -/
def CoefArg.isFalsy : CoefArg → Bool
  | .noneArg => true
  | .dict l => l.isEmpty

/-- The dict entries the coefficient closure captures (`None` captures
nothing that the closure could index). -/
def CoefArg.entries : CoefArg → List (Nat × Int)
  | .noneArg => []
  | .dict l => l

/-- The closure `Model.sum` returns: either the bare-term lambda
`lambda: (f'\x7bvar\x7d_\x7bi\x7d' for i in index())` or the coefficient
lambda.  `index` is the value the closure captured; `none` models a
captured Python `None` (a declared variable without `default_index`). -/
inductive SumFactory where
  | bare (var : String) (index : Option IndexProducer)
  | withCoef (var : String) (coef : List (Nat × Int))
      (index : Option IndexProducer)

/-- `Model.sum`: resolves `index` (explicit argument first, else the
declared variable's `default_index`; an undeclared variable raises
`ValueError(f'Unrecognized variable name {var}')` through the
`KeyError` handler), then returns one of the two closures.  Note that a
declared variable whose `default_index` is `None` resolves without error:
the dict access succeeds and `None` is captured. -/
def Model.sum (m : Model) (var : String) (coefficients : CoefArg)
    (index : Option IndexProducer) : Except PyError SumFactory :=
  match ((match index with
    | some ix => Except.ok (some ix)
    | none =>
      match lookupDict m.vars var with
      | some entry => Except.ok entry.default_index
      | none =>
        Except.error (PyError.valueError
          ("Unrecognized variable name " ++ var))) :
      Except PyError (Option IndexProducer)) with
  | .error e => .error e
  | .ok resolved =>
    if coefficients.isFalsy then .ok (.bare var resolved)
    else .ok (.withCoef var coefficients.entries resolved)

/-- Draining one invocation of a `Model.sum` closure: calling a captured
`None` index raises `TypeError`; otherwise the fresh index sequence is
formatted term by term.  A coefficient lookup outside the dict's domain
raises `KeyError` while the generator is drained. -/
def SumFactory.invoke : SumFactory → Except PyError (List String)
  | .bare var index =>
    match index with
    | none => .error .typeError
    | some ix => .ok ((ix ()).map (fun i => var ++ "_" ++ toString i))
  | .withCoef var coef index =>
    match index with
    | none => .error .typeError
    | some ix =>
      (ix ()).mapM (fun i =>
        match lookupDict coef i with
        | some c => .ok (toString c ++ " " ++ var ++ "_" ++ toString i)
        | none => .error .keyError)

/-- A `Model.sum` result as an expression value (the closure object that
callers pass to `add_objective` / `add_constraints`). -/
def SumFactory.toExpr (f : SumFactory) : ExprVal :=
  .lamE (fun _ => f.invoke)

/-- The serializer state of `Model.write_expr`: the pending line buffer (a
Python list of already sign-placed words), the running `line_length`
counter, and the lines written to the file so far.  Each element of `out`
is one written line, kept as its list of words so that "a line consisting
of exactly one term" is directly visible; the text written to the file for
a line `l` is `String.join l ++ "\n"`. -/
structure WSt where
  line : List String
  lineLength : Nat
  out : List (List String)
deriving Repr

/-- The sign-placement step of `write_expr`:
`if next_word[0] != '-': next_word = ' + ' + next_word`.  Indexing an empty
string raises `IndexError`. -/
def signWord (w : String) : Except PyError String :=
  match w.data with
  | [] => .error .indexError
  | c :: _ => .ok (if c = '-' then w else " + " ++ w)

/-- The buffering step of `write_expr` for one sign-placed word:
`line_length += len(next_word)`; within the 80-character budget the word is
appended to the pending line, otherwise the pending line is written
(followed by a newline) and the buffer restarts with just this word. -/
def pushWord (st : WSt) (next_word : String) : WSt :=
  if st.lineLength + next_word.length ≤ 80 then
    { st with line := st.line ++ [next_word],
              lineLength := st.lineLength + next_word.length }
  else
    { line := [next_word], lineLength := next_word.length,
      out := st.out ++ [st.line] }

/-- The `StopIteration` handler of `write_expr`: when a factory's term
sequence is exhausted, a non-empty pending line is written.  Faithful to
the source, neither `line` nor `line_length` is reset afterwards: the
written words stay in the buffer when the next factory is processed. -/
def endFactory (st : WSt) : WSt :=
  if st.line.length > 0 then { st with out := st.out ++ [st.line] } else st

/-- The inner `while True` loop of `write_expr` over one factory's term
sequence: sign-place each term and buffer it. -/
def procTerms : WSt → List String → Except PyError WSt
  | st, [] => .ok st
  | st, w :: ws =>
    match signWord w with
    | .error e => .error e
    | .ok nw => procTerms (pushWord st nw) ws

/-- `comp = lam()` — invoking one element of the expression list.  Only a
function is callable; a string, list or other value raises `TypeError`. -/
def invokeFactory : ExprVal → Except PyError (List String)
  | .lamE f => f ()
  | _ => .error .typeError

/-- The outer `for lam in expr` loop of `write_expr`: invoke each factory,
drain its terms, and on exhaustion flush the (unreset) pending line. -/
def procFactories : WSt → List ExprVal → Except PyError WSt
  | st, [] => .ok st
  | st, f :: fs =>
    match invokeFactory f with
    | .error e => .error e
    | .ok terms =>
      match procTerms st terms with
      | .error e => .error e
      | .ok st' => procFactories (endFactory st') fs

/-- `Model.write_expr` without the `appnd` parameter (its only caller,
`write`, never passes one; the `appnd` branch itself would raise a
`TypeError` since it passes a Python list to `fobj.write`).  A top-level
string expression raises the usage `ValueError`; iterating anything else
that is not a list raises `TypeError`.  The result is the list of written
lines, each as its list of sign-placed words. -/
def write_expr (expr : ExprVal) : Except PyError (List (List String)) :=
  match expr with
  | .strE _ => .error (.valueError "usage: model.write_str_expr()")
  | .listE items =>
    (procFactories { line := [], lineLength := 0, out := [] } items).map WSt.out
  | _ => .error .typeError

/-- The text `write_expr` contributes to the file: every written line is
terminated by a newline. -/
def renderLines (out : List (List String)) : String :=
  String.join (out.map (fun l => String.join l ++ "\n"))

/-- `Model.write`: writes the objective sense line, the serialized
objective expression, the section header `ST`, and the marker `end` — and
nothing else: the bounds, general and binary sections are bare comments in
the source and `self.constraints` is never read.  Returns the file text
paired with the returned value `f'\x7boutput_file\x7d'`.  Reading the
objective attributes before `add_objective` ran raises `AttributeError`. -/
def Model.write (m : Model) (output_file : String) :
    Except PyError (String × String) :=
  match m.objective_sense, m.objective_expr with
  | some sense, some oexpr =>
    match write_expr (.listE oexpr) with
    | .error e => .error e
    | .ok body =>
      .ok (sense ++ "\n" ++ renderLines body ++ "ST\n" ++ "end", output_file)
  | _, _ => .error .attributeError

/-! Concrete inputs used by the claim theorems. -/

/-- The restartable index sequence `0, 1, 2, 3`
(`lambda: (i for i in range(4))`). -/
def idx0123 : IndexProducer := fun _ => [0, 1, 2, 3]

/-- The coefficient dict `{0: 2, 1: 3, 2: -1, 3: 4}` of end-to-end
scenario 2. -/
def coefDict : List (Nat × Int) := [(0, 2), (1, 3), (2, -1), (3, 4)]

/-- End-to-end scenario 1: declare `x` (`Binary`, `default_index` =
`0,1,2,3`), set objective `MIN` over `sum('x')`, write. -/
def scenario1 : Except PyError (String × String) := do
  let m ← Model.init.add_variable "x" "Binary" .noneA .noneA (some idx0123)
  let f ← m.sum "x" .noneArg none
  let m ← m.add_objective f.toExpr "MIN"
  m.write "out.lp"

/-- End-to-end scenario 2: scenario 1 plus the constraint
`sum('x', coefficients={0:2, 1:3, 2:-1, 3:4}) <= 50`. -/
def scenario2 : Except PyError (String × String) := do
  let m ← Model.init.add_variable "x" "Binary" .noneA .noneA (some idx0123)
  let fobj ← m.sum "x" .noneArg none
  let m ← m.add_objective fobj.toExpr "MIN"
  let fc ← m.sum "x" (.dict coefDict) none
  let m ← m.add_constraints fc.toExpr "<=" 50 none none
  m.write "out.lp"

/-- A factory producing the single one-character term `a`. -/
def dupA : ExprVal := .lamE (fun _ => .ok ["a"])

/-- A factory producing the single one-character term `b`. -/
def dupB : ExprVal := .lamE (fun _ => .ok ["b"])

/-- A factory producing the single one-character term `t`. -/
def exprT : ExprVal := .lamE (fun _ => .ok ["t"])

/-- A term of 78 characters: within the 80-character budget on its own, but
81 characters once the `" + "` sign placement is attached. -/
def longTerm : String := String.mk (List.replicate 78 'a')

/-- Undo the sign placement `write_expr` inserted in front of a
non-negative term. -/
def stripSign (w : String) : String :=
  if w.take 3 = " + " then w.drop 3 else w

/-- The amended line-width property: every written line fits the
80-character budget, except a line consisting of exactly one sign-placed
word longer than 80 characters. -/
def linesOK (out : List (List String)) : Prop :=
  ∀ l ∈ out, (String.join l).length ≤ 80 ∨ ∃ w, l = [w] ∧ 80 < w.length

/-- The serializer-state invariant behind `linesOK`: all written lines are
fine, `line_length` agrees with the buffered characters, and the buffer is
within budget unless it holds exactly one word. -/
def stOK (st : WSt) : Prop :=
  linesOK st.out ∧
  st.lineLength = (st.line.map String.length).sum ∧
  ((st.line.map String.length).sum ≤ 80 ∨ ∃ w, st.line = [w])

/-- A registry with `x` declared (`Binary`) and no `default_index`. -/
def mX : Model :=
  { Model.init with vars :=
      [("x", { variable_type := "Binary", upper_bounds := .noneV,
               lower_bounds := .noneV, default_index := none })] }

/-- A registry with `x` declared (`Binary`) with `default_index` =
`0,1,2,3`. -/
def mXIdx : Model :=
  { Model.init with vars :=
      [("x", { variable_type := "Binary", upper_bounds := .noneV,
               lower_bounds := .noneV, default_index := some idx0123 })] }

/-- Declaring several constraint blocks in sequence, all with the
`block_name` argument omitted (one `add_constraints(expr, sense, rhs,
index)` call per list entry). -/
def addAutoMany :
    Model → List (ExprVal × String × Int × Option IndexProducer) →
      Except PyError Model
  | m, [] => .ok m
  | m, it :: its =>
    match m.add_constraints it.1 it.2.1 it.2.2.1 it.2.2.2 none with
    | .error e => .error e
    | .ok m' => addAutoMany m' its

/-- A registry whose constraint dict already holds the explicit block name
`c`. -/
def mC : Model :=
  { Model.init with constraints := [(.nameKey "c", .tuple3 exprT "<=" none)] }

/-- Observation helper for stating the claims: split a file text into its
lines at newline characters (structurally, so that the kernel can evaluate
it on concrete output). -/
def splitNl : List Char → List (List Char)
  | [] => [[]]
  | c :: cs =>
    match splitNl cs with
    | [] => [[c]]
    | l :: ls => if c = '\n' then [] :: l :: ls else (c :: l) :: ls

/-- The lines of a file text, as strings. -/
def fileLines (s : String) : List String :=
  (splitNl s.data).map fun cs => String.mk cs

/-! Helper lemmas. -/

/-- The length of a joined line is the sum of the lengths of its words. -/
theorem length_join (l : List String) :
    (String.join l).length = (l.map String.length).sum := by
  have h : ∀ (l : List String) (s : String),
      (l.foldl (fun r t => r ++ t) s).length =
        s.length + (l.map String.length).sum := by
    intro l
    induction l with
    | nil => intro s; simp
    | cons a as ih =>
      intro s
      simp only [List.foldl, List.map, List.sum_cons, ih, String.length_append]
      omega
  simpa using h l ""

/-! Claim theorems. -/

/--
C1 (code_bug): the claim says `write_expr` loses no data — every term is
emitted exactly once and the pending line buffer restarts empty after the
flush that follows each factory's exhaustion.  The code flushes on
`StopIteration` but never resets `line` / `line_length`, so the flushed
words are still in the buffer when the next factory is drained and get
written a second time.  Evaluating the embedding at two one-term factories
(`a` and `b`): the written lines are `" + a"` and `" + a + b"`, so after
removing newlines and sign placements the output reads `a, a, b` while the
factories produced `a, b` — the term `a` is duplicated.
-/
theorem C1_buffer_not_reset_eval :
    write_expr (.listE [dupA, dupB]) = .ok [[" + a"], [" + a", " + b"]] ∧
    (List.flatten [[" + a"], [" + a", " + b"]]).map stripSign =
      ["a", "a", "b"] ∧
    ["a", "a", "b"] ≠ ["a", "b"] := by
  refine ⟨rfl, by decide, by decide⟩

/--
C2 (code_bug): the claim says `write(registry, sink)` emits, between the
`ST` section header and the `end` marker, each constraint block's
serialized expression and its sense/rhs suffix line.  The source's `write`
never reads `self.constraints` at all: it writes the sense line, the
objective, `ST` and `end`, nothing else.  First conjunct: the full
scenario-2 pipeline (objective `MIN` over `sum('x')` plus the registered
constraint `2 x_0 + 3 x_1 - 1 x_2 + 4 x_3 <= 50`) produces a file whose
whole text is `MIN`, the objective line, `ST`, `end` — the returned handle
being the sink path.  Second conjunct: `write`'s output is invariant under
replacing the constraint registry wholesale, i.e. constraints are ignored.
Third conjunct: the file's lines contain no `<= 50` suffix line.
-/
theorem C2_write_skips_constraints :
    scenario2 = .ok ("MIN\n + x_0 + x_1 + x_2 + x_3\nST\nend", "out.lp") ∧
    (∀ (m : Model) (c : List (BlockKey × ConstraintTuple)) (k : Nat)
       (file : String),
       Model.write { m with constraints := c, constraint_block := k } file =
         m.write file) ∧
    "<= 50" ∉ fileLines "MIN\n + x_0 + x_1 + x_2 + x_3\nST\nend" := by
  refine ⟨rfl, fun m c k file => rfl, by decide⟩

/--
C3 (code_bug): the claim says a scalar bound `b` is normalised into a
factory that always returns `b`.  The source's normalisation is
`upper_bounds = lambda: upper_bounds`: the closure captures the local
variable, and the assignment rebinds that same variable to the closure, so
every invocation of the stored factory returns the closure itself — a
function object, never the number `5`.
-/
theorem C3_scalar_bound_eval :
    normalizeBound (.numA 5) = .frameLambda ∧
    callBound (normalizeBound (.numA 5)) = .ok (.funcR .frameLambda) ∧
    (Except.ok (.funcR .frameLambda) :
      Except PyError BoundCallResult) ≠ .ok (.numR 5) := by
  refine ⟨rfl, rfl, fun h => by cases h⟩

/--
C4 (corrected, counterexample): the claim expects the objective line of
end-to-end scenario 1 to read exactly `x_0 + x_1 + x_2 + x_3`.  The code
sign-places every non-negative term, including the first one, so the line
actually written is ` + x_0 + x_1 + x_2 + x_3` and the expected line
appears nowhere in the file.
-/
theorem C4_counterexample :
    scenario1 = .ok ("MIN\n + x_0 + x_1 + x_2 + x_3\nST\nend", "out.lp") ∧
    "x_0 + x_1 + x_2 + x_3" ∉
      fileLines "MIN\n + x_0 + x_1 + x_2 + x_3\nST\nend" := by
  refine ⟨rfl, by decide⟩

/--
C4 (amended): after declaring `x` with kind `Binary` and `default_index`
`0,1,2,3` and setting the objective to `MIN` over `sum('x')`, `write`
produces the line `MIN`, then the line ` + x_0 + x_1 + x_2 + x_3` (each
non-negative term, the first included, is prefixed by the three-character
sign placement), then `ST`, then the marker `end`.
-/
theorem C4_amended_output :
    scenario1 = .ok ("MIN\n + x_0 + x_1 + x_2 + x_3\nST\nend", "out.lp") ∧
    fileLines "MIN\n + x_0 + x_1 + x_2 + x_3\nST\nend" =
      ["MIN", " + x_0 + x_1 + x_2 + x_3", "ST", "end"] := by
  refine ⟨rfl, by decide⟩

/--
C6 (corrected, counterexample): the claim says that with no explicit index,
construction fails unless the declared variable's `default_index` exists.
In the code, a declared variable always resolves (the inner dict has a
`default_index` key holding `None`), so `sum('x')` on a variable declared
without `default_index` returns a factory successfully; only invoking that
factory fails (calling `None`).
-/
theorem C6_counterexample :
    (Model.init.add_variable "x" "Binary" .noneA .noneA none).bind
      (fun m => m.sum "x" .noneArg none) = .ok (.bare "x" none) ∧
    (SumFactory.bare "x" none).invoke = .error .typeError := by
  refine ⟨rfl, rfl⟩

/--
C6 (amended): with no explicit index argument, `sum` fails with the
unknown-variable `ValueError` exactly when the variable was never
declared; for a declared variable construction always succeeds — the
variable's `default_index` is captured as-is, and when it is absent the
returned factory's invocation (not its construction) fails with a
`TypeError`.
-/
theorem C6_amended (m : Model) (var : String) (coefs : CoefArg) :
    (lookupDict m.vars var = none →
      m.sum var coefs none =
        .error (.valueError ("Unrecognized variable name " ++ var))) ∧
    (∀ entry : VarEntry, lookupDict m.vars var = some entry →
      entry.default_index = none →
        ∃ f : SumFactory, m.sum var coefs none = .ok f ∧
          f.invoke = .error .typeError) := by
  constructor
  · intro h
    simp [Model.sum, h]
  · intro entry hlook hidx
    cases hc : coefs.isFalsy
    · exact ⟨.withCoef var coefs.entries none,
        by simp [Model.sum, hlook, hidx, hc], rfl⟩
    · exact ⟨.bare var none, by simp [Model.sum, hlook, hidx, hc], rfl⟩

/-- Closed instance discharging C6's amended statement: the undeclared name
`y` raises the unknown-variable error, and the declared-but-indexless `x`
yields a factory whose invocation raises `TypeError`. -/
theorem C6_amended_witness :
    (lookupDict mX.vars "y" = none →
      mX.sum "y" .noneArg none =
        .error (.valueError ("Unrecognized variable name " ++ "y"))) ∧
    (∀ entry : VarEntry, lookupDict mX.vars "x" = some entry →
      entry.default_index = none →
        ∃ f : SumFactory, mX.sum "x" .noneArg none = .ok f ∧
          f.invoke = .error .typeError) :=
  ⟨(C6_amended mX "y" .noneArg).1, (C6_amended mX "x" .noneArg).2⟩

/--
C7 (corrected, counterexample): the claim says a literal string passed to
`add_objective` fails at declaration time.  The source's `expr_types`
contains `str`, so `check_expr` accepts the string and `add_objective`
stores it (wrapped in a one-element list) without any error.
-/
theorem C7_counterexample :
    Model.init.add_objective (.strE "x + y") "MIN" =
      .ok { Model.init with
              objective_expr := some [.strE "x + y"],
              objective_sense := some "MIN" } := by
  rfl

/--
C7 (amended): a literal string expression passes declaration-time
validation (`check_expr` accepts `str`) and is stored wrapped in a
one-element list; the failure is deferred to write time, where the
serializer tries to call the string as a factory and raises a `TypeError`
(the wrapping even bypasses `write_expr`'s dedicated usage error for
top-level strings).
-/
theorem C7_amended (s : String) :
    Model.init.add_objective (.strE s) "MIN" =
      .ok { Model.init with
              objective_expr := some [.strE s],
              objective_sense := some "MIN" } ∧
    write_expr (.listE [.strE s]) = .error .typeError := by
  refine ⟨rfl, rfl⟩

/--
C9 (confirmed): a factory built by `sum` over a restartable index producer
and a fixed coefficient lookup yields, on two independent invocations,
identical term sequences — element for element, in the same order.  In the
embedding a restartable producer is a pure function, so both draining runs
of the factory produce the same list.
-/
theorem C9_restartable (m : Model) (var : String) (coefs : CoefArg)
    (ix : Option IndexProducer) (f : SumFactory)
    (_hf : m.sum var coefs ix = .ok f) (l₁ l₂ : List String)
    (h₁ : (f.invoke, f.invoke).1 = .ok l₁)
    (h₂ : (f.invoke, f.invoke).2 = .ok l₂) :
    l₁.length = l₂.length ∧
      ∀ (i : Nat) (hi : i < l₁.length) (hi' : i < l₂.length),
        l₁.get ⟨i, hi⟩ = l₂.get ⟨i, hi'⟩ := by
  have h : Except.ok (ε := PyError) l₁ = .ok l₂ := h₁ ▸ h₂
  cases h
  exact ⟨rfl, fun i hi hi' => rfl⟩

/-- Closed instance discharging C9's statement: the factory
`sum('x')` over `default_index = 0,1,2,3` is built and drained twice,
yielding the same four terms. -/
theorem C9_restartable_witness :
    (["x_0", "x_1", "x_2", "x_3"].length =
        ["x_0", "x_1", "x_2", "x_3"].length ∧
      ∀ (i : Nat) (hi : i < ["x_0", "x_1", "x_2", "x_3"].length)
        (hi' : i < ["x_0", "x_1", "x_2", "x_3"].length),
        ["x_0", "x_1", "x_2", "x_3"].get ⟨i, hi⟩ =
          ["x_0", "x_1", "x_2", "x_3"].get ⟨i, hi'⟩) :=
  C9_restartable mXIdx "x" .noneArg none (.bare "x" (some idx0123)) rfl
    ["x_0", "x_1", "x_2", "x_3"] ["x_0", "x_1", "x_2", "x_3"] rfl rfl

/--
C10 (confirmed): a falsy `coefficients` container (the empty dict) makes
`sum` behave exactly as if coefficients had been omitted: `if not
coefficients` is true for both, the same bare-term closure is returned,
and every produced term is the bare `<var>_<i>` form.
-/
theorem C10_empty_coefficients (m : Model) (var : String) :
    (∀ ixa : Option IndexProducer,
      m.sum var (.dict []) ixa = m.sum var .noneArg ixa) ∧
    (∀ ix : IndexProducer,
      m.sum var (.dict []) (some ix) = .ok (.bare var (some ix)) ∧
      (SumFactory.bare var (some ix)).invoke =
        .ok ((ix ()).map (fun i => var ++ "_" ++ toString i))) := by
  constructor
  · intro ixa
    cases ixa <;> rfl
  · intro ix
    exact ⟨rfl, rfl⟩

/-! Line-width invariant (claim C5). -/

/-- A buffer within budget, or holding a single word, joins to a line that
is within budget or a single over-budget word. -/
theorem lineOK_of_buffer (l : List String)
    (h : (l.map String.length).sum ≤ 80 ∨ ∃ w, l = [w]) :
    (String.join l).length ≤ 80 ∨ ∃ w, l = [w] ∧ 80 < w.length := by
  rcases h with h | ⟨w, rfl⟩
  · left; rw [length_join]; exact h
  · by_cases hw : 80 < w.length
    · right; exact ⟨w, rfl, hw⟩
    · left
      rw [length_join]
      simp only [List.map_cons, List.map_nil, List.sum_cons, List.sum_nil]
      omega

/-- `pushWord` preserves the serializer-state invariant. -/
theorem stOK_push (st : WSt) (nw : String) (h : stOK st) :
    stOK (pushWord st nw) := by
  obtain ⟨hout, hlen, hbuf⟩ := h
  rw [pushWord]
  split
  next hle =>
    refine ⟨hout, ?_, Or.inl ?_⟩
    · simp only [List.map_append, List.sum_append, List.map_cons,
        List.map_nil, List.sum_cons, List.sum_nil]
      omega
    · simp only [List.map_append, List.sum_append, List.map_cons,
        List.map_nil, List.sum_cons, List.sum_nil]
      omega
  next hgt =>
    refine ⟨?_, by simp, Or.inr ⟨nw, rfl⟩⟩
    intro l hl
    rcases List.mem_append.mp hl with hl | hl
    · exact hout l hl
    · rw [List.mem_singleton] at hl
      subst hl
      exact lineOK_of_buffer st.line hbuf

/-- `endFactory` preserves the serializer-state invariant. -/
theorem stOK_end (st : WSt) (h : stOK st) : stOK (endFactory st) := by
  obtain ⟨hout, hlen, hbuf⟩ := h
  rw [endFactory]
  split
  next =>
    refine ⟨?_, hlen, hbuf⟩
    intro l hl
    rcases List.mem_append.mp hl with hl | hl
    · exact hout l hl
    · rw [List.mem_singleton] at hl
      subst hl
      exact lineOK_of_buffer st.line hbuf
  next => exact ⟨hout, hlen, hbuf⟩

/-- Draining one factory's terms preserves the invariant. -/
theorem stOK_procTerms (ws : List String) :
    ∀ st st' : WSt, stOK st → procTerms st ws = .ok st' → stOK st' := by
  induction ws with
  | nil =>
    intro st st' h he
    rw [procTerms] at he
    cases he
    exact h
  | cons w ws ih =>
    intro st st' h he
    rw [procTerms] at he
    cases hs : signWord w with
    | error e => rw [hs] at he; cases he
    | ok nw =>
      rw [hs] at he
      exact ih _ _ (stOK_push st nw h) he

/-- The whole factory loop preserves the invariant. -/
theorem stOK_procFactories (fs : List ExprVal) :
    ∀ st st' : WSt, stOK st → procFactories st fs = .ok st' → stOK st' := by
  induction fs with
  | nil =>
    intro st st' h he
    rw [procFactories] at he
    cases he
    exact h
  | cons f fs ih =>
    intro st st' h he
    rw [procFactories] at he
    cases hf : invokeFactory f with
    | error e => rw [hf] at he; cases he
    | ok terms =>
      simp only [hf] at he
      cases ht : procTerms st terms with
      | error e => simp only [ht] at he; exact Except.noConfusion he
      | ok st₁ =>
        simp only [ht] at he
        exact ih _ _ (stOK_end st₁ (stOK_procTerms terms st st₁ h ht)) he

/--
C5 (amended): every line `write_expr` emits is at most 80 characters long,
except a line consisting of exactly one sign-placed word (the term together
with its inserted three-character `" + "` placement, when one was inserted)
whose length exceeds 80; such a word is emitted alone on its own line,
never split.  The overflow check happens before the overflowing word is
accepted into the buffer.
-/
theorem C5_amended (expr : ExprVal) (out : List (List String))
    (h : write_expr expr = .ok out) : linesOK out := by
  match expr with
  | .strE s =>
    exact Except.noConfusion
      (show Except.error (PyError.valueError "usage: model.write_str_expr()") =
        Except.ok out from h)
  | .lamE f =>
    exact Except.noConfusion
      (show Except.error PyError.typeError = Except.ok out from h)
  | .otherE =>
    exact Except.noConfusion
      (show Except.error PyError.typeError = Except.ok out from h)
  | .listE items =>
    rw [write_expr] at h
    cases hp : procFactories { line := [], lineLength := 0, out := [] } items with
    | error e => rw [hp] at h; cases h
    | ok st' =>
      rw [hp] at h
      cases h
      have hinit : stOK { line := [], lineLength := 0, out := [] } := by
        refine ⟨?_, rfl, Or.inl (by simp)⟩
        intro l hl
        cases hl
      exact (stOK_procFactories items _ st' hinit hp).1

/-- Closed instance discharging C5's amended statement on a one-term
expression. -/
theorem C5_amended_witness :
    write_expr (.listE [exprT]) = .ok [[" + t"]] ∧ linesOK [[" + t"]] :=
  ⟨rfl, C5_amended (.listE [exprT]) [[" + t"]] rfl⟩

/--
C5 (corrected, counterexample): the claim exempts only lines consisting of
one term whose *own* length exceeds 80.  A factory producing a single
78-character term (within the budget on its own) makes `write_expr` emit
the sign-placed word `" + " ++ longTerm` of length 81 — a line longer than
80 characters whose sole term is not longer than 80 (it also first flushes
the empty pending line, written as a bare newline).
-/
theorem C5_counterexample :
    write_expr (.listE [.lamE (fun _ => .ok [longTerm])]) =
      .ok [[], [" + " ++ longTerm]] ∧
    (String.join [" + " ++ longTerm]).length = 81 ∧
    longTerm.length = 78 := by
  refine ⟨rfl, ?_, ?_⟩ <;> decide

/-! Constraint-registry bookkeeping (claim C8). -/

/-- After a dict assignment, looking the key up yields the new value. -/
theorem lookupDict_insert {α β : Type} [DecidableEq α]
    (d : List (α × β)) (k : α) (v : β) :
    lookupDict (dictInsert d k v) k = some v := by
  induction d with
  | nil => simp [dictInsert, lookupDict]
  | cons p rest ih =>
    obtain ⟨k', v'⟩ := p
    by_cases hk : k' = k
    · subst hk; simp [dictInsert, lookupDict]
    · simp [dictInsert, lookupDict, hk, ih]

/-- A dict assignment to a present key leaves the key sequence unchanged
(the value is replaced in place). -/
theorem dictInsert_keys_of_mem {α β : Type} [DecidableEq α]
    (d : List (α × β)) (k : α) (v : β) (h : k ∈ d.map Prod.fst) :
    (dictInsert d k v).map Prod.fst = d.map Prod.fst := by
  induction d with
  | nil => simp at h
  | cons p rest ih =>
    obtain ⟨k', v'⟩ := p
    by_cases hk : k' = k
    · subst hk; simp [dictInsert]
    · simp only [List.map_cons] at h
      have h' : k ∈ rest.map Prod.fst := by
        rcases List.mem_cons.mp h with h | h
        · exact absurd h.symm hk
        · exact h
      simp [dictInsert, hk, ih h']

/-- A dict assignment to an absent key appends the pair at the end. -/
theorem dictInsert_append_of_not_mem {α β : Type} [DecidableEq α]
    (d : List (α × β)) (k : α) (v : β) (h : k ∉ d.map Prod.fst) :
    dictInsert d k v = d ++ [(k, v)] := by
  induction d with
  | nil => simp [dictInsert]
  | cons p rest ih =>
    obtain ⟨k', v'⟩ := p
    have hk : k' ≠ k := by
      intro e
      subst e
      simp at h
    have h' : k ∉ rest.map Prod.fst := by
      intro e
      exact h (by simp [e])
    simp [dictInsert, hk, ih h']

/-- Auto-keyed declarations: starting from a registry whose auto-keys are
all below the counter, each valid unnamed `add_constraints` call appends
the next counter value as the key, in declaration order. -/
theorem addAutoMany_keys
    (items : List (ExprVal × String × Int × Option IndexProducer)) :
    ∀ m : Model,
      (∀ it ∈ items, expr_type_ok it.1 = true) →
      (∀ j : Nat, m.constraint_block ≤ j →
        BlockKey.autoKey j ∉ m.constraints.map Prod.fst) →
      ∃ m' : Model, addAutoMany m items = .ok m' ∧
        m'.constraints.map Prod.fst =
          m.constraints.map Prod.fst ++
            (List.range items.length).map
              (fun i => BlockKey.autoKey (m.constraint_block + i)) ∧
        m'.constraint_block = m.constraint_block + items.length := by
  induction items with
  | nil =>
    intro m _ _
    exact ⟨m, rfl, by simp, by simp⟩
  | cons it its ih =>
    intro m hv hfresh
    have hok : m.add_constraints it.1 it.2.1 it.2.2.1 it.2.2.2 none =
        .ok { m with
          constraints := dictInsert m.constraints
            (.autoKey m.constraint_block)
            (.tuple4 it.1 it.2.1 it.2.2.1 it.2.2.2),
          constraint_block := m.constraint_block + 1 } := by
      simp [Model.add_constraints, check_expr, hv it (by simp)]
    have hins : dictInsert m.constraints (BlockKey.autoKey m.constraint_block)
        (.tuple4 it.1 it.2.1 it.2.2.1 it.2.2.2) =
        m.constraints ++
          [(BlockKey.autoKey m.constraint_block,
            .tuple4 it.1 it.2.1 it.2.2.1 it.2.2.2)] :=
      dictInsert_append_of_not_mem _ _ _
        (hfresh m.constraint_block (Nat.le_refl _))
    obtain ⟨m', h1, h2, h3⟩ := ih
      { m with
        constraints := dictInsert m.constraints
          (.autoKey m.constraint_block)
          (.tuple4 it.1 it.2.1 it.2.2.1 it.2.2.2),
        constraint_block := m.constraint_block + 1 }
      (fun x hx => hv x (by simp [hx]))
      (by
        intro j hj hmem
        have hj' : m.constraint_block + 1 ≤ j := hj
        have hmem' : BlockKey.autoKey j ∈
            (m.constraints ++
              [(BlockKey.autoKey m.constraint_block,
                ConstraintTuple.tuple4 it.1 it.2.1 it.2.2.1
                  it.2.2.2)]).map Prod.fst := by
          rw [← hins]
          exact hmem
        simp only [List.map_append, List.map_cons, List.map_nil] at hmem'
        rcases List.mem_append.mp hmem' with hmem' | hmem'
        · exact hfresh j (by omega) hmem'
        · rw [List.mem_singleton] at hmem'
          have hje : j = m.constraint_block := by
            cases hmem'
            rfl
          omega)
    have h2' : m'.constraints.map Prod.fst =
        (dictInsert m.constraints (BlockKey.autoKey m.constraint_block)
          (.tuple4 it.1 it.2.1 it.2.2.1 it.2.2.2)).map Prod.fst ++
        (List.range its.length).map
          (fun i => BlockKey.autoKey (m.constraint_block + 1 + i)) := h2
    have h3' : m'.constraint_block = m.constraint_block + 1 + its.length := h3
    refine ⟨m', ?_, ?_, by simp only [List.length_cons]; omega⟩
    · rw [addAutoMany, hok]
      exact h1
    · rw [h2', hins]
      simp only [List.map_append, List.map_cons, List.map_nil,
        List.append_assoc, List.singleton_append, List.length_cons]
      congr 1
      rw [List.range_succ_eq_map, List.map_cons, List.map_map, Nat.add_zero]
      congr 1
      apply List.map_congr_left
      intro i _
      simp only [Function.comp_apply]
      congr 1
      omega

/--
C8 (corrected, counterexample): the claim says an explicit `block_name`
that is already taken fails with a duplicate-name error, leaving the
registry unchanged.  Reusing the name `c` raises nothing: the second call
succeeds and silently replaces the stored block (the first call stored the
sense `<=`, the surviving entry holds `>=` — note also that the named
branch stores a 3-tuple, dropping `rhs`).
-/
theorem C8_counterexample :
    Model.init.add_constraints exprT "<=" 1 none (some "c") =
      .ok { Model.init with
              constraints := [(.nameKey "c", .tuple3 exprT "<=" none)] } ∧
    mC.add_constraints exprT ">=" 2 none (some "c") =
      .ok { Model.init with
              constraints := [(.nameKey "c", .tuple3 exprT ">=" none)] } := by
  refine ⟨rfl, rfl⟩

/--
C8 (amended): if `block_name` is omitted, blocks are stored under the
auto-increment integer keys in declaration order starting at 0; if an
explicit `block_name` is supplied that is already taken, the call succeeds
and silently overwrites that entry in place — no error is raised, the key
sequence is unchanged, and the name maps to the new (rhs-less) tuple.
-/
theorem C8_amended
    (items : List (ExprVal × String × Int × Option IndexProducer))
    (hv : ∀ it ∈ items, expr_type_ok it.1 = true)
    (n : Model) (e : ExprVal) (he : expr_type_ok e = true) (sense : String)
    (rhs : Int) (ix : Option IndexProducer) (nm : String)
    (hnm : nm.isEmpty = false)
    (htaken : BlockKey.nameKey nm ∈ n.constraints.map Prod.fst) :
    (∃ m' : Model, addAutoMany Model.init items = .ok m' ∧
       m'.constraints.map Prod.fst =
         (List.range items.length).map BlockKey.autoKey ∧
       m'.constraint_block = items.length) ∧
    (∃ n' : Model, n.add_constraints e sense rhs ix (some nm) = .ok n' ∧
       lookupDict n'.constraints (.nameKey nm) = some (.tuple3 e sense ix) ∧
       n'.constraints.map Prod.fst = n.constraints.map Prod.fst) := by
  constructor
  · obtain ⟨m', h1, h2, h3⟩ := addAutoMany_keys items Model.init hv
      (by intro j _ h; exact absurd h (by simp [Model.init]))
    refine ⟨m', h1, ?_, by simpa [Model.init] using h3⟩
    rw [h2]
    simp [Model.init]
  · refine ⟨{ n with
        constraints :=
          dictInsert n.constraints (BlockKey.nameKey nm)
            (ConstraintTuple.tuple3 e sense ix) },
      ?_, ?_, ?_⟩
    · simp [Model.add_constraints, check_expr, he, hnm]
    · exact lookupDict_insert n.constraints _ _
    · exact dictInsert_keys_of_mem n.constraints _ _ htaken

/-- Closed instance discharging C8's amended statement: two omitted-name
declarations from a fresh registry are stored under the keys 0 and 1 in
order, and redeclaring the taken name `c` succeeds and overwrites. -/
theorem C8_amended_witness :
    (∃ m' : Model,
       addAutoMany Model.init
         [(exprT, "<=", 1, none), (exprT, ">=", 2, none)] = .ok m' ∧
       m'.constraints.map Prod.fst =
         (List.range 2).map BlockKey.autoKey ∧
       m'.constraint_block = 2) ∧
    (∃ n' : Model, mC.add_constraints exprT ">=" 2 none (some "c") = .ok n' ∧
       lookupDict n'.constraints (.nameKey "c") =
         some (.tuple3 exprT ">=" none) ∧
       n'.constraints.map Prod.fst = mC.constraints.map Prod.fst) :=
  C8_amended [(exprT, "<=", 1, none), (exprT, ">=", 2, none)]
    (by
      intro it hit
      rcases List.mem_cons.mp hit with h | h
      · rw [h]
        rfl
      · rw [List.mem_singleton] at h
        rw [h]
        rfl)
    mC exprT rfl ">=" 2 none "c" rfl (by simp [mC])

end LazyWriter
